import Mathlib

/-!
# Workflow Graph Session Engine — verification development

Shallow embedding of the workflow page of this repository
(`src/next/src/pages/workflow/index.tsx`, `src/unnamed/part_000`) together
with the Workflow Graph Session Engine those pages consume.  The engine
itself (graph model, validation, save orchestration, presence tracking) is
not part of the visible sources, so those definitions are modelled from the
specification; the error classification, OAuth component, query gating and
create-workflow form are translated directly from the TypeScript sources.
-/

namespace WorkflowEngine

/-! ## Data model (§3) -/

/-- Modelled from the spec: a graph node (workflow block).  `id` is an
opaque unique identifier; `type` selects the block kind; `input` maps
parameter names to values; `position` is an uninterpreted 2D coordinate. -/
structure Node where
  id : String
  type : String
  input : List (String × String)
  position : Int × Int
deriving DecidableEq

/-- Modelled from the spec: a directed edge between node ids. -/
structure Edge where
  id : String
  source : String
  target : String
deriving DecidableEq

/-- Modelled from the spec: the Graph Model state.  `nextId` is the fresh-id
counter used by `addNode`/`addEdge` (ids are generated at creation time). -/
structure Graph where
  nodes : List Node
  edges : List Edge
  nextId : Nat
deriving DecidableEq

/-- The empty graph. -/
def emptyGraph : Graph := { nodes := [], edges := [], nextId := 0 }

/-- The ids of the nodes currently present, in insertion order. -/
def nodeIdsG (g : Graph) : List String := g.nodes.map (fun n => n.id)

/-- Referential integrity: every edge's `source` and `target` resolve to an
existing node (§3 invariant set). -/
def EdgesResolve (g : Graph) : Prop :=
  ∀ e ∈ g.edges, e.source ∈ nodeIdsG g ∧ e.target ∈ nodeIdsG g

instance (g : Graph) : Decidable (EdgesResolve g) :=
  inferInstanceAs
    (Decidable (∀ e ∈ g.edges, e.source ∈ nodeIdsG g ∧ e.target ∈ nodeIdsG g))

/-! ## Graph Model mutation operations (§4.1) -/

/-- Typed mutation errors (§7). -/
inductive MutationError where
  | invalidReference
  | notFound
deriving DecidableEq

/-- Payload of `addNode`: everything but the generated id. -/
structure NodeSpec where
  type : String
  input : List (String × String)
  position : Int × Int
deriving DecidableEq

/-- Modelled from the spec: `addNode(spec)` assigns a fresh id and inserts
the node; it never fails (§4.1). -/
def addNode (g : Graph) (s : NodeSpec) : Graph × Node :=
  let n : Node :=
    { id := "node-" ++ toString g.nextId
      type := s.type
      input := s.input
      position := s.position }
  ({ g with nodes := g.nodes ++ [n], nextId := g.nextId + 1 }, n)

/-- Modelled from the spec: `removeNode(id)` removes the node and cascades
removal of every edge whose `source` or `target` equals `id`; removing an
absent id is a no-op (§4.1). -/
def removeNode (g : Graph) (id : String) : Graph :=
  { g with
    nodes := g.nodes.filter (fun n => !(n.id == id))
    edges := g.edges.filter (fun e => !(e.source == id) && !(e.target == id)) }

/-- Modelled from the spec: `addEdge(source, target)` fails with
`InvalidReference` if either endpoint is absent; otherwise it always
succeeds — cycle-freedom is not enforced here, only at validation time
(§4.1). -/
def addEdge (g : Graph) (source target : String) :
    Except MutationError (Graph × Edge) :=
  if source ∈ nodeIdsG g ∧ target ∈ nodeIdsG g then
    let e : Edge := { id := "edge-" ++ toString g.nextId, source, target }
    Except.ok ({ g with edges := g.edges ++ [e], nextId := g.nextId + 1 }, e)
  else
    Except.error MutationError.invalidReference

/-- Modelled from the spec: `removeEdge(id)` — idempotent removal (§4.1). -/
def removeEdge (g : Graph) (id : String) : Graph :=
  { g with edges := g.edges.filter (fun e => !(e.id == id)) }

/-- A mutation request, for reasoning about sequences of calls (§8). -/
inductive GraphOp where
  | addNode (s : NodeSpec)
  | addEdge (source target : String)
  | removeNode (id : String)
deriving DecidableEq

/-- Apply one mutation request; a rejected `addEdge` leaves the graph
unchanged (§7: operation rejected, graph unchanged). -/
def applyOp (g : Graph) : GraphOp → Graph
  | GraphOp.addNode s => (addNode g s).1
  | GraphOp.addEdge s t =>
      match addEdge g s t with
      | Except.ok (g', _) => g'
      | Except.error _ => g
  | GraphOp.removeNode id => removeNode g id

/-- Apply a sequence of mutation requests in order. -/
def applyOps (g : Graph) (ops : List GraphOp) : Graph :=
  ops.foldl applyOp g

/-! ## Validation Engine (§4.4)

Modelled from the spec: `validate(graph)` runs structural checks.  Cycle
detection is the standard DAG check — a depth-first traversal tracking a
"currently on stack" marker per node; when the traversal revisits a node
still on the stack, the cycle is reported with the participating node
ids. -/

/-- A structural defect preventing save (§4.4). -/
inductive ValidationIssue where
  | danglingEdge (edgeId : String)
  | cycle (nodeIds : List String)
  | orphanNode (nodeId : String)
deriving DecidableEq

/-- Verdict of the Validation Engine (§4.4). -/
inductive ValidationResult where
  | valid
  | invalid (reasons : List ValidationIssue)
deriving DecidableEq

/-- Direct successors of a node id along the edge list. -/
def succs (edges : List Edge) (u : String) : List String :=
  (edges.filter (fun e => e.source == u)).map (fun e => e.target)

/-- The directed-edge relation induced by an edge list. -/
def edgeIn (edges : List Edge) (u v : String) : Prop :=
  ∃ e, e ∈ edges ∧ e.source = u ∧ e.target = v

instance (edges : List Edge) (u v : String) : Decidable (edgeIn edges u v) :=
  inferInstanceAs (Decidable (∃ e, e ∈ edges ∧ e.source = u ∧ e.target = v))

/-- The nodes of the on-stack marker list strictly above the revisited node
`u` (those between the top of the stack and `u`). -/
def stackAbove (u : String) : List String → List String
  | [] => []
  | g :: rest => if g = u then [] else g :: stackAbove u rest

/-- The cycle reported when the traversal revisits `u` while `u` is still on
the stack `grey`: `u` followed by the on-stack nodes back down to `u`. -/
def extractCycle (u : String) (grey : List String) : List String :=
  u :: (stackAbove u grey).reverse

/-- One level of the depth-first traversal: process the work list `ws`
against the "currently on stack" list `grey` and the finished list `black`
(most recently finished first).  A work-list node already in `grey` is a
revisit of an on-stack node and reports a cycle; a node already in `black`
is skipped; otherwise the node is pushed on the stack and its successors
are explored through `dive` before the node is moved to `black`. -/
def dfsList (edges : List Edge)
    (dive : List String → List String → List String →
      Except (List String) (List String))
    (grey black : List String) :
    List String → Except (List String) (List String)
  | [] => Except.ok black
  | u :: rest =>
    if u ∈ grey then Except.error (extractCycle u grey)
    else if u ∈ black then dfsList edges dive grey black rest
    else
      match dive (u :: grey) black (succs edges u) with
      | Except.error c => Except.error c
      | Except.ok black₂ => dfsList edges dive grey (u :: black₂) rest

/-- Depth-first traversal with a recursion-depth bound `fuel`; the bound is
chosen large enough that it never runs out (the stack holds distinct ids). -/
def dfsFuel (edges : List Edge) :
    Nat → List String → List String → List String →
    Except (List String) (List String)
  | 0, _, black, _ => Except.ok black
  | fuel + 1, grey, black, ws => dfsList edges (dfsFuel edges fuel) grey black ws

/-- Every id the traversal can ever put on the stack: the node ids together
with all edge targets, deduplicated. -/
def reachIds (g : Graph) : List String :=
  (nodeIdsG g ++ g.edges.map (fun e => e.target)).dedup

/-- Run the depth-first cycle check over all nodes of the graph; `some c`
reports the node ids participating in a detected cycle. -/
def findCycle (g : Graph) : Option (List String) :=
  match dfsFuel g.edges ((reachIds g).length + 1) [] [] (nodeIdsG g) with
  | Except.error c => some c
  | Except.ok _ => none

/-- Modelled from the spec: the Validation Engine.  Reports dangling edges,
a detected cycle, and — when the optional stricter policy `checkOrphans` is
enabled (§9) — nodes disconnected from all edges. -/
def validate (checkOrphans : Bool) (g : Graph) : ValidationResult :=
  let ids := nodeIdsG g
  let dangling :=
    g.edges.filter (fun e => !decide (e.source ∈ ids ∧ e.target ∈ ids))
  let cycleIssues :=
    match findCycle g with
    | some c => [ValidationIssue.cycle c]
    | none => []
  let orphanIssues :=
    if checkOrphans then
      (g.nodes.filter (fun n =>
        !(g.edges.any (fun e => e.source == n.id || e.target == n.id)))).map
        (fun n => ValidationIssue.orphanNode n.id)
    else []
  let reasons :=
    dangling.map (fun e => ValidationIssue.danglingEdge e.id)
      ++ cycleIssues ++ orphanIssues
  if reasons = [] then ValidationResult.valid
  else ValidationResult.invalid reasons

/-- A directed cycle, written as the list of participating node ids: each
consecutive pair is connected by an edge, and an edge closes the list back
to its head. -/
def IsCycleList (edges : List Edge) : List String → Prop
  | [] => False
  | a :: rest => List.Chain' (edgeIn edges) (a :: rest ++ [a])

/-- A reduction-friendly decision procedure for chains of the edge
relation (the library instance blocks kernel evaluation). -/
def decEdgeChain (edges : List Edge) :
    (a : String) → (l : List String) → Decidable (List.Chain (edgeIn edges) a l)
  | _, [] => isTrue List.Chain.nil
  | a, b :: l =>
      have : Decidable (List.Chain (edgeIn edges) b l) := decEdgeChain edges b l
      decidable_of_iff (edgeIn edges a b ∧ List.Chain (edgeIn edges) b l)
        List.chain_cons.symm

instance (edges : List Edge) : (c : List String) → Decidable (IsCycleList edges c)
  | [] => inferInstanceAs (Decidable False)
  | a :: rest => decEdgeChain edges a (rest ++ [a])

/-- A graph is acyclic when no list of node ids forms a directed cycle. -/
def Acyclic (g : Graph) : Prop := ∀ c, ¬ IsCycleList g.edges c

/-- The finished list of the traversal is in reverse-topological order:
every successor of an entry occurs strictly later in the list. -/
def TopoOK (edges : List Edge) (b : List String) : Prop :=
  ∀ l₁ u l₂, b = l₁ ++ u :: l₂ → ∀ v ∈ succs edges u, v ∈ l₂

/-! ## Save/Sync Orchestrator (§4.5, §5)

Modelled from the spec: a state machine `Idle → Validating → Persisting →
Succeeded | Failed`, driven by external events (the save request, the
Validation Engine's verdict, the transport collaborator's response).
`save()` is not reentrant: while a save is in `Validating`/`Persisting`, a
second `save()` is rejected with `SaveInProgress`. -/

/-- Typed transport failure kinds (§4.5, §7). -/
inductive TransportError where
  | networkUnavailable
  | rejected
  | unknown
deriving DecidableEq

/-- Phases of the save state machine. -/
inductive SavePhase where
  | idle
  | validating
  | persisting
  | succeeded
  | failed
deriving DecidableEq

/-- User-visible outcomes emitted by the orchestrator. -/
inductive SaveOutcome where
  | validationFailed (issues : List ValidationIssue)
  | transportFailed (e : TransportError)
  | saveInProgress
  | saved (workflowId : String)
deriving DecidableEq

/-- Events driving the orchestrator. -/
inductive OrchEvent where
  | saveRequested
  | validated (r : ValidationResult)
  | persistResult (r : Except TransportError String)
  | cancelRequested

/-- Orchestrator state: the current phase plus a count of persistence
attempts handed to the transport collaborator. -/
structure OrchState where
  phase : SavePhase
  persistStarts : Nat
deriving DecidableEq

/-- A save is pending while the machine is validating or persisting. -/
def isPendingPhase : SavePhase → Bool
  | SavePhase.validating => true
  | SavePhase.persisting => true
  | _ => false

/-- Modelled from the spec: one orchestrator transition.  A `saveRequested`
during a pending save is rejected with `SaveInProgress`; a validation
verdict routes to `Persisting` or `Failed`; a transport response routes to
`Succeeded` (resetting to `Idle` for the next save) or `Failed`;
cancellation forcibly resets to `Idle`. -/
def orchStep (s : OrchState) : OrchEvent → OrchState × Option SaveOutcome
  | OrchEvent.saveRequested =>
      if isPendingPhase s.phase then (s, some SaveOutcome.saveInProgress)
      else ({ s with phase := SavePhase.validating }, none)
  | OrchEvent.validated r =>
      if s.phase = SavePhase.validating then
        match r with
        | ValidationResult.valid =>
            ({ phase := SavePhase.persisting
               persistStarts := s.persistStarts + 1 }, none)
        | ValidationResult.invalid issues =>
            ({ s with phase := SavePhase.failed },
             some (SaveOutcome.validationFailed issues))
      else (s, none)
  | OrchEvent.persistResult r =>
      if s.phase = SavePhase.persisting then
        match r with
        | Except.ok wid =>
            ({ s with phase := SavePhase.idle }, some (SaveOutcome.saved wid))
        | Except.error e =>
            ({ s with phase := SavePhase.failed },
             some (SaveOutcome.transportFailed e))
      else (s, none)
  | OrchEvent.cancelRequested =>
      ({ s with phase := SavePhase.idle }, none)

/-- Run the orchestrator over a list of events, collecting the emitted
outcomes in order. -/
def orchRun (s : OrchState) : List OrchEvent → OrchState × List SaveOutcome
  | [] => (s, [])
  | e :: rest =>
      let step := orchStep s e
      let next := orchRun step.1 rest
      (next.1, step.2.toList ++ next.2)

/-! ## Presence Tracker (§4.3)

Modelled from the spec: presence entries keyed by participant id, kept in
join order; `list()` returns reverse-join order (most recent joiner first);
the first joiner is marked "primary" for visual distinction. -/

/-- A presence entry: participant id, display identity, and the "primary"
mark given to the first joiner. -/
structure PresenceEntry where
  participantId : String
  avatar : String
  primary : Bool
deriving DecidableEq

/-- The presence registry, in join order (earliest joiner first). -/
def PresenceRegistry := List PresenceEntry

/-- Modelled from the spec: `join` registers or refreshes presence; the
first entry is marked primary. -/
def presenceJoin (entries : List PresenceEntry) (pid avatar : String) :
    List PresenceEntry :=
  if entries.any (fun e => e.participantId == pid) then
    entries.map (fun e =>
      if e.participantId == pid then { e with avatar := avatar } else e)
  else
    entries ++ [{ participantId := pid, avatar := avatar
                  primary := entries.isEmpty }]

/-- Modelled from the spec: `leave` removes the entry. -/
def presenceLeave (entries : List PresenceEntry) (pid : String) :
    List PresenceEntry :=
  entries.filter (fun e => !(e.participantId == pid))

/-- Modelled from the spec: `list()` returns presence entries in
reverse-join order (most recent joiner first). -/
def presenceList (entries : List PresenceEntry) : List PresenceEntry :=
  entries.reverse

/-- The visually distinguished avatar.  In the page source the entries are
rendered in registry order inside a `flex-row-reverse` container and the
`first:` styling distinguishes the first rendered entry, i.e. the earliest
joiner still present. -/
def distinguishedEntry (entries : List PresenceEntry) : Option PresenceEntry :=
  entries.head?

/-! ## Save-failure classification (`src/next/src/pages/workflow/index.tsx`)

Translated from the source: `isTypeError`, `isError` and the
`try`/`catch` branches of `handleClick`. -/

/-- A JavaScript error value as observed by `handleClick`: whether it is an
`instanceof Error`, its `name`, and its `message`. -/
structure JsError where
  isInstanceOfError : Bool
  name : String
  message : String
deriving DecidableEq

/-- `isTypeError` from the source: `error instanceof Error && error.name
=== "TypeError"`. -/
def isTypeError (e : JsError) : Bool :=
  e.isInstanceOfError && e.name == "TypeError"

/-- `isError` from the source: `error instanceof Error && error.name ===
"Error"`. -/
def isError (e : JsError) : Bool :=
  e.isInstanceOfError && e.name == "Error"

/-- The three failure kinds of §4.5/§7. -/
inductive SaveFailureKind where
  | networkUnavailable
  | rejected
  | unknown
deriving DecidableEq

/-- The classification performed by `handleClick`'s catch block: a
`TypeError` with message `"Failed to fetch"` is the request not reaching
the server; an `Error` with message `"Unprocessable Entity"` is the server
declining the save; anything else is unknown. -/
def classifySaveError (e : JsError) : SaveFailureKind :=
  if isTypeError e && e.message == "Failed to fetch" then
    SaveFailureKind.networkUnavailable
  else if isError e && e.message == "Unprocessable Entity" then
    SaveFailureKind.rejected
  else
    SaveFailureKind.unknown

/-- The user-facing alert text for each failure kind, from `handleClick`. -/
def saveFailureMessage : SaveFailureKind → String
  | SaveFailureKind.networkUnavailable =>
      "An error occurred while saving the workflow. Please refresh and re-attempt to save."
  | SaveFailureKind.rejected =>
      "Invalid workflow. Make sure to clear unconnected nodes and remove cycles."
  | SaveFailureKind.unknown =>
      "An error occurred while saving the workflow."

/-- The alert text `handleClick` shows for a failed save, written exactly
as the source's if/else chain. -/
def handleClickErrorAlert (e : JsError) : String :=
  if isTypeError e && e.message == "Failed to fetch" then
    "An error occurred while saving the workflow. Please refresh and re-attempt to save."
  else if isError e && e.message == "Unprocessable Entity" then
    "Invalid workflow. Make sure to clear unconnected nodes and remove cycles."
  else
    "An error occurred while saving the workflow."

/-! ## OAuth integration component (`src/unnamed/part_000`)

Translated from the source: the `OauthIntegration` component renders a
"Connect Slack" button when the `get_info("slack")` query errored, and a
channel combo box when it returned data; selecting a channel feeds the
channel's `id` into `props.onChange`. -/

/-- A selectable channel, as returned by `get_info`. -/
structure Channel where
  id : String
  name : String
deriving DecidableEq

/-- Observable state of a `useQuery` call: still loading, errored, or
succeeded with data.  (`isError` and `data` are mutually exclusive.) -/
inductive QueryState (α : Type) where
  | loading
  | failure
  | success (data : α)
deriving DecidableEq

/-- The interactive elements the component can render: the connect button
(holding the URL a click navigates to) and the channel combo box. -/
inductive OauthElement where
  | connectButton (navigateTo : String)
  | channelCombo (items : List Channel)
deriving DecidableEq

/-- The component body: `{isError && <Button .../>}{data && <Combo .../>}`,
where the button's click handler navigates to
`api.install("slack", router.asPath)`. -/
def oauthIntegrationRender (q : QueryState (List Channel))
    (install : String → String → String) (currentPath : String) :
    List OauthElement :=
  (match q with
   | QueryState.failure => [OauthElement.connectButton (install "slack" currentPath)]
   | _ => [])
  ++
  (match q with
   | QueryState.success d => [OauthElement.channelCombo d]
   | _ => [])

/-- The combo box `onChange` handler feeds the selected channel's `id`
(`props.onChange(e.id)`) back into the node's input. -/
def oauthSelectionValue (e : Channel) : String := e.id

/-! ## Session-gated queries (`index.tsx` and `part_000`)

Both `useQuery` calls pass `enabled: !!session`, so neither fetch runs
without a session. -/

/-- An opaque session, as supplied by the session provider (§6). -/
structure Session where
  userId : String
  organizations : List String
deriving DecidableEq

/-- `enabled: !!session` for the workflow-list query in `index.tsx`. -/
def workflowsQueryEnabled (session : Option Session) : Bool :=
  session.isSome

/-- `enabled: !!session` for the `get_info` query in the OAuth component. -/
def oauthQueryEnabled (session : Option Session) : Bool :=
  session.isSome

/-- `useQuery` issues its fetch only when enabled; a disabled query never
calls the fetcher and reports no data. -/
def runQuery {α : Type} (enabled : Bool) (fetch : Unit → α) : Option α :=
  if enabled then some (fetch ()) else none

/-- The workflow-list query of `WorkflowPage`:
`WorkflowApi.fromSession(session).getAll()`, gated on the session. -/
def workflowsQuery {α : Type} (session : Option Session)
    (getAll : Option Session → α) : Option α :=
  runQuery (workflowsQueryEnabled session) (fun _ => getAll session)

/-- The OAuth info query of `OauthIntegration`: `api.get_info("slack")`,
gated on the session. -/
def oauthInfoQuery {α : Type} (session : Option Session)
    (getInfo : Option Session → String → α) : Option α :=
  runQuery (oauthQueryEnabled session) (fun _ => getInfo session "slack")

/-! ## Create-workflow form (`index.tsx`, `CreateWorkflow`) -/

/-- What pressing Save on the create-workflow form does. -/
inductive SubmitAction where
  | promptForName
  | create (name : String)
deriving DecidableEq

/-- The form's `submit` function: an empty name (JavaScript falsy string)
only alerts "Please enter a workflow name." and returns; otherwise
`onSubmit(workflowName)` is invoked. -/
def submitCreateWorkflow (workflowName : String) : SubmitAction :=
  if workflowName = "" then SubmitAction.promptForName
  else SubmitAction.create workflowName

/-! ## Concrete graphs used in scenarios -/

/-- The spec's cycle scenario: nodes `n1`, `n2` with edges `n1 -> n2` and
`n2 -> n1`. -/
def demoCycleGraph : Graph :=
  { nodes := [{ id := "n1", type := "t", input := [], position := (0, 0) },
              { id := "n2", type := "t", input := [], position := (0, 0) }]
    edges := [{ id := "e1", source := "n1", target := "n2" },
              { id := "e2", source := "n2", target := "n1" }]
    nextId := 0 }

/-- An acyclic graph: nodes `n1`, `n2` with the single edge `n1 -> n2`. -/
def demoLineGraph : Graph :=
  { nodes := [{ id := "n1", type := "t", input := [], position := (0, 0) },
              { id := "n2", type := "t", input := [], position := (0, 0) }]
    edges := [{ id := "e1", source := "n1", target := "n2" }]
    nextId := 0 }

/-- A single node and no edges. -/
def singleNodeGraph : Graph :=
  { nodes := [{ id := "n1", type := "t", input := [], position := (0, 0) }]
    edges := []
    nextId := 0 }

/-! ## General list helpers -/

theorem filter_self_idem {α : Type} (p : α → Bool) (l : List α) :
    (l.filter p).filter p = l.filter p := by
  induction l with
  | nil => rfl
  | cons a t ih =>
    by_cases h : p a
    · simp [List.filter_cons, h, ih]
    · simp [List.filter_cons, h, ih]

/-- A graph with no edges has no directed cycle. -/
theorem acyclic_of_edges_nil (g : Graph) (h : g.edges = []) : Acyclic g := by
  intro c hc
  cases c with
  | nil => exact hc
  | cons a rest =>
    have hchain : List.Chain (edgeIn g.edges) a (rest ++ [a]) := hc
    cases rest with
    | nil =>
      rw [List.nil_append, List.chain_cons] at hchain
      rcases hchain.1 with ⟨e, he, _⟩
      rw [h] at he
      exact absurd he (List.not_mem_nil e)
    | cons b rest' =>
      rw [List.cons_append, List.chain_cons] at hchain
      rcases hchain.1 with ⟨e, he, _⟩
      rw [h] at he
      exact absurd he (List.not_mem_nil e)

/-! ## Claim theorems -/

/-- C1: every failed save attempt is classified into exactly one of the
three outcomes — `NetworkUnavailable` when the request could not reach the
server (a `TypeError` with message "Failed to fetch"), `Rejected` when the
server declined it (an `Error` with message "Unprocessable Entity"), and
`Unknown` otherwise — each outcome carries its own distinct user-facing
message, with `Rejected` carrying the corrective message about removing
cycles and unconnected nodes. -/
theorem save_failure_classification :
    (∀ e : JsError,
      (isTypeError e = true ∧ e.message = "Failed to fetch" →
        classifySaveError e = SaveFailureKind.networkUnavailable) ∧
      (¬(isTypeError e = true ∧ e.message = "Failed to fetch") →
        isError e = true ∧ e.message = "Unprocessable Entity" →
        classifySaveError e = SaveFailureKind.rejected) ∧
      (¬(isTypeError e = true ∧ e.message = "Failed to fetch") →
        ¬(isError e = true ∧ e.message = "Unprocessable Entity") →
        classifySaveError e = SaveFailureKind.unknown) ∧
      handleClickErrorAlert e = saveFailureMessage (classifySaveError e)) ∧
    (saveFailureMessage SaveFailureKind.networkUnavailable ≠
        saveFailureMessage SaveFailureKind.rejected ∧
      saveFailureMessage SaveFailureKind.networkUnavailable ≠
        saveFailureMessage SaveFailureKind.unknown ∧
      saveFailureMessage SaveFailureKind.rejected ≠
        saveFailureMessage SaveFailureKind.unknown) ∧
    saveFailureMessage SaveFailureKind.rejected =
      "Invalid workflow. Make sure to clear unconnected nodes and remove cycles." := by
  refine ⟨fun e => ⟨?_, ?_, ?_, ?_⟩, ⟨by decide, by decide, by decide⟩, rfl⟩
  · rintro ⟨h1, h2⟩
    simp [classifySaveError, h1, h2]
  · intro hn ⟨h1, h2⟩
    have hcond : ¬(isTypeError e && e.message == "Failed to fetch") = true := by
      simpa [Bool.and_eq_true, beq_iff_eq] using hn
    simp [classifySaveError, hcond, h1, h2]
  · intro hn1 hn2
    have hcond1 : ¬(isTypeError e && e.message == "Failed to fetch") = true := by
      simpa [Bool.and_eq_true, beq_iff_eq] using hn1
    have hcond2 : ¬(isError e && e.message == "Unprocessable Entity") = true := by
      simpa [Bool.and_eq_true, beq_iff_eq] using hn2
    simp [classifySaveError, hcond1, hcond2]
  · unfold handleClickErrorAlert classifySaveError
    split
    · rfl
    · split
      · rfl
      · rfl

/-- Witness for C1 at concrete error values: a fetch-level `TypeError`, a
server rejection, and an unrecognized error each land in their kind. -/
theorem save_failure_classification_witness :
    classifySaveError
        { isInstanceOfError := true, name := "TypeError", message := "Failed to fetch" } =
      SaveFailureKind.networkUnavailable ∧
    classifySaveError
        { isInstanceOfError := true, name := "Error", message := "Unprocessable Entity" } =
      SaveFailureKind.rejected ∧
    classifySaveError
        { isInstanceOfError := false, name := "Oops", message := "boom" } =
      SaveFailureKind.unknown :=
  ⟨(save_failure_classification.1 _).1 (by decide),
   ((save_failure_classification.1 _).2.1 (by decide) (by decide)),
   ((save_failure_classification.1 _).2.2.1 (by decide) (by decide))⟩

/-- C10: submitting the create-workflow form with an empty name never
invokes `onSubmit` — it only prompts for a name; `onSubmit` is invoked with
the entered name exactly when the name is non-empty. -/
theorem create_workflow_submit_gating :
    (submitCreateWorkflow "" = SubmitAction.promptForName) ∧
    (∀ name : String, name ≠ "" →
      submitCreateWorkflow name = SubmitAction.create name) ∧
    (∀ name entered : String,
      submitCreateWorkflow entered = SubmitAction.create name →
      entered ≠ "" ∧ name = entered) := by
  refine ⟨rfl, ?_, ?_⟩
  · intro name h
    simp [submitCreateWorkflow, h]
  · intro name entered h
    by_cases he : entered = ""
    · rw [he] at h
      exact absurd h (by simp [submitCreateWorkflow])
    · simp [submitCreateWorkflow, he] at h
      exact ⟨he, h.symm⟩

/-- Witness for C10 at a concrete non-empty name. -/
theorem create_workflow_submit_gating_witness :
    submitCreateWorkflow "PDF Summary to Slack" =
      SubmitAction.create "PDF Summary to Slack" :=
  create_workflow_submit_gating.2.1 "PDF Summary to Slack" (by decide)

/-- C9: without a session, no operations are performed — neither the
workflow-list fetch nor the OAuth `get_info` query is issued (both
`useQuery` calls are disabled until a session exists). -/
theorem no_session_no_operations :
    (∀ (α : Type) (getAll : Option Session → α), workflowsQuery none getAll = none) ∧
    (∀ (α : Type) (getInfo : Option Session → String → α),
      oauthInfoQuery none getInfo = none) ∧
    (∀ (α : Type) (s : Option Session) (getAll : Option Session → α),
      (workflowsQuery s getAll).isSome = true → s.isSome = true) ∧
    (∀ (α : Type) (s : Option Session) (getInfo : Option Session → String → α),
      (oauthInfoQuery s getInfo).isSome = true → s.isSome = true) := by
  refine ⟨fun α getAll => rfl, fun α getInfo => rfl, ?_, ?_⟩
  · intro α s getAll h
    cases s with
    | none => exact absurd h (by simp [workflowsQuery, workflowsQueryEnabled, runQuery])
    | some s0 => rfl
  · intro α s getInfo h
    cases s with
    | none => exact absurd h (by simp [oauthInfoQuery, oauthQueryEnabled, runQuery])
    | some s0 => rfl

/-- Witness for C9: with a session present the workflow query does run. -/
theorem no_session_no_operations_witness :
    (Option.some { userId := "u", organizations := ["org"] } : Option Session).isSome = true :=
  no_session_no_operations.2.2.1 Nat
    (some { userId := "u", organizations := ["org"] }) (fun _ => 0) rfl

/-- C8: the OAuth integration is a two-state handshake — when the info
query errors (`Disconnected`) the component renders only the connect
button, whose activation navigates to `install("slack", returnPath)`; when
it succeeds (`Connected`) only the channel combo over the returned channels
is rendered, and a selection feeds the channel's id (not its name) back
through `onChange`. -/
theorem oauth_two_state_handshake :
    (∀ (install : String → String → String) (path : String),
      oauthIntegrationRender QueryState.failure install path =
        [OauthElement.connectButton (install "slack" path)]) ∧
    (∀ (d : List Channel) (install : String → String → String) (path : String),
      oauthIntegrationRender (QueryState.success d) install path =
        [OauthElement.channelCombo d]) ∧
    (∀ (install : String → String → String) (path : String),
      oauthIntegrationRender QueryState.loading install path = []) ∧
    (∀ e : Channel, oauthSelectionValue e = e.id) ∧
    oauthSelectionValue { id := "C123", name := "general" } ≠ "general" := by
  exact ⟨fun _ _ => rfl, fun _ _ _ => rfl, fun _ _ => rfl, fun _ => rfl, by decide⟩

/-- Witness for C8: disconnected state at a concrete install collaborator
renders exactly the connect button with the install URL. -/
theorem oauth_two_state_handshake_witness :
    oauthIntegrationRender QueryState.failure
        (fun _ _ => "https://auth.example/redirect") "/workflow" =
      [OauthElement.connectButton "https://auth.example/redirect"] :=
  oauth_two_state_handshake.1 (fun _ _ => "https://auth.example/redirect") "/workflow"

/-- C7: the Presence Tracker's `list()` returns entries in reverse-join
order (most recent joiner first); the visually distinguished avatar is the
earliest joiner still present (the last entry of the listed order); the
first joiner is marked primary; and after `join(A)`, `join(B)`, `leave(A)`
the listed participants are exactly `[B]`. -/
theorem presence_list_reverse_join_order :
    (∀ (entries : List PresenceEntry) (pid avatar : String),
      entries.any (fun e => e.participantId == pid) = false →
      presenceList (presenceJoin entries pid avatar) =
        { participantId := pid, avatar := avatar, primary := entries.isEmpty } ::
          presenceList entries) ∧
    (∀ entries : List PresenceEntry,
      distinguishedEntry entries = (presenceList entries).getLast?) ∧
    (∀ pid avatar : String,
      presenceJoin [] pid avatar =
        [{ participantId := pid, avatar := avatar, primary := true }]) ∧
    (∀ pA pB aA aB : String, pA ≠ pB →
      (presenceList
          (presenceLeave (presenceJoin (presenceJoin [] pA aA) pB aB) pA)).map
        (fun e => e.participantId) = [pB]) := by
  refine ⟨?_, ?_, ?_, ?_⟩
  · intro entries pid avatar h
    simp [presenceJoin, h, presenceList]
  · intro entries
    simp [distinguishedEntry, presenceList]
  · intro pid avatar
    simp [presenceJoin]
  · intro pA pB aA aB hne
    have hBA : (pB == pA) = false := by
      simp [beq_iff_eq]
      exact fun h => hne h.symm
    have hAB : (pA == pB) = false := by simp [beq_iff_eq, hne]
    simp [presenceJoin, presenceLeave, presenceList, hAB, hBA]

/-- Witness for C7: the join/join/leave scenario at concrete participants,
and a fresh join at concrete entries listing most-recent-first. -/
theorem presence_list_reverse_join_order_witness :
    (presenceList
        (presenceLeave (presenceJoin (presenceJoin [] "alice" "a.png") "bob" "b.png")
          "alice")).map (fun e => e.participantId) = ["bob"] ∧
    presenceList
        (presenceJoin [{ participantId := "alice", avatar := "a.png", primary := true }]
          "bob" "b.png") =
      { participantId := "bob", avatar := "b.png", primary := false } ::
        presenceList [{ participantId := "alice", avatar := "a.png", primary := true }] :=
  ⟨presence_list_reverse_join_order.2.2.2 "alice" "bob" "a.png" "b.png" (by decide),
   presence_list_reverse_join_order.1
     [{ participantId := "alice", avatar := "a.png", primary := true }] "bob" "b.png"
     (by decide)⟩

/-- C5: a `save()` issued while a prior save is still pending (phase
`Validating` or `Persisting`) returns `SaveInProgress`, starts no second
persistence attempt, and leaves the orchestrator state — and hence the
outcome of the first save under any continuation of events — unchanged. -/
theorem save_reentrancy_rejected :
    ∀ s : OrchState, isPendingPhase s.phase = true →
      orchStep s OrchEvent.saveRequested = (s, some SaveOutcome.saveInProgress) ∧
      (orchStep s OrchEvent.saveRequested).1.persistStarts = s.persistStarts ∧
      ∀ evs : List OrchEvent,
        orchRun (orchStep s OrchEvent.saveRequested).1 evs = orchRun s evs := by
  intro s h
  have hstep : orchStep s OrchEvent.saveRequested = (s, some SaveOutcome.saveInProgress) := by
    simp [orchStep, h]
  exact ⟨hstep, by rw [hstep], fun evs => by rw [hstep]⟩

/-- Witness for C5: a reentrant save while persisting is rejected and the
pending persistence proceeds to its original outcome. -/
theorem save_reentrancy_rejected_witness :
    orchStep { phase := SavePhase.persisting, persistStarts := 1 }
        OrchEvent.saveRequested =
      ({ phase := SavePhase.persisting, persistStarts := 1 }, some SaveOutcome.saveInProgress) ∧
    orchRun
        (orchStep { phase := SavePhase.persisting, persistStarts := 1 }
          OrchEvent.saveRequested).1
        [OrchEvent.persistResult (Except.ok "wf-1")] =
      orchRun { phase := SavePhase.persisting, persistStarts := 1 }
        [OrchEvent.persistResult (Except.ok "wf-1")] :=
  ⟨(save_reentrancy_rejected { phase := SavePhase.persisting, persistStarts := 1 } rfl).1,
   (save_reentrancy_rejected { phase := SavePhase.persisting, persistStarts := 1 } rfl).2.2
     [OrchEvent.persistResult (Except.ok "wf-1")]⟩

/-- C4: `addEdge(source, target)` with an absent endpoint returns
`InvalidReference` and leaves the whole graph unchanged; with both
endpoints present it always succeeds (appending the edge), with no
condition on cycles. -/
theorem addEdge_reference_checking :
    (∀ (g : Graph) (s t : String), ¬(s ∈ nodeIdsG g ∧ t ∈ nodeIdsG g) →
      addEdge g s t = Except.error MutationError.invalidReference ∧
      applyOp g (GraphOp.addEdge s t) = g) ∧
    (∀ (g : Graph) (s t : String), s ∈ nodeIdsG g → t ∈ nodeIdsG g →
      addEdge g s t = Except.ok
        ({ g with
            edges := g.edges ++
              [{ id := "edge-" ++ toString g.nextId, source := s, target := t }]
            nextId := g.nextId + 1 },
         { id := "edge-" ++ toString g.nextId, source := s, target := t })) := by
  constructor
  · intro g s t h
    have herr : addEdge g s t = Except.error MutationError.invalidReference := by
      simp [addEdge, h]
    exact ⟨herr, by simp [applyOp, herr]⟩
  · intro g s t hs ht
    simp [addEdge, hs, ht]

/-- Witness for C4: `addEdge("missing", "n1")` is rejected leaving the
graph unchanged, while `addEdge("n2", "n1")` on the graph `n1 -> n2`
succeeds even though it creates a cycle. -/
theorem addEdge_reference_checking_witness :
    (addEdge demoLineGraph "missing" "n1" = Except.error MutationError.invalidReference ∧
      applyOp demoLineGraph (GraphOp.addEdge "missing" "n1") = demoLineGraph) ∧
    addEdge demoLineGraph "n2" "n1" = Except.ok
      ({ demoLineGraph with
          edges := demoLineGraph.edges ++
            [{ id := "edge-" ++ toString demoLineGraph.nextId, source := "n2", target := "n1" }]
          nextId := demoLineGraph.nextId + 1 },
       { id := "edge-" ++ toString demoLineGraph.nextId, source := "n2", target := "n1" }) :=
  ⟨addEdge_reference_checking.1 demoLineGraph "missing" "n1" (by decide),
   addEdge_reference_checking.2 demoLineGraph "n2" "n1" (by decide) (by decide)⟩

/-- C6: `removeNode` and `removeEdge` are idempotent — a second call with
the same id leaves the graph exactly as one call — and removing an absent
id is a no-op, not an error. -/
theorem remove_idempotent_and_absent_noop :
    (∀ (g : Graph) (id : String), removeNode (removeNode g id) id = removeNode g id) ∧
    (∀ (g : Graph) (id : String), removeEdge (removeEdge g id) id = removeEdge g id) ∧
    (∀ (g : Graph) (id : String), id ∉ nodeIdsG g → EdgesResolve g →
      removeNode g id = g) ∧
    (∀ (g : Graph) (id : String), (∀ e ∈ g.edges, e.id ≠ id) →
      removeEdge g id = g) := by
  refine ⟨?_, ?_, ?_, ?_⟩
  · intro g id
    simp [removeNode, filter_self_idem]
  · intro g id
    simp [removeEdge, filter_self_idem]
  · intro g id hid hres
    have hn : g.nodes.filter (fun n => !(n.id == id)) = g.nodes := by
      apply List.filter_eq_self.mpr
      intro n hn
      simp only [Bool.not_eq_eq_eq_not, Bool.not_true, beq_eq_false_iff_ne, ne_eq]
      intro heq
      exact hid (heq ▸ List.mem_map_of_mem (fun n => n.id) hn)
    have he : g.edges.filter (fun e => !(e.source == id) && !(e.target == id)) = g.edges := by
      apply List.filter_eq_self.mpr
      intro e he
      rcases hres e he with ⟨hs, ht⟩
      have h1 : e.source ≠ id := fun heq => hid (heq ▸ hs)
      have h2 : e.target ≠ id := fun heq => hid (heq ▸ ht)
      simp [h1, h2]
    simp only [removeNode, hn, he]
  · intro g id habs
    have he : g.edges.filter (fun e => !(e.id == id)) = g.edges := by
      apply List.filter_eq_self.mpr
      intro e he
      simp [habs e he]
    simp only [removeEdge, he]

/-- Witness for C6: removing ids absent from a concrete graph changes
nothing, and a double removal equals a single one. -/
theorem remove_idempotent_and_absent_noop_witness :
    removeNode (removeNode demoCycleGraph "n1") "n1" = removeNode demoCycleGraph "n1" ∧
    removeNode singleNodeGraph "ghost" = singleNodeGraph ∧
    removeEdge demoLineGraph "nope" = demoLineGraph :=
  ⟨remove_idempotent_and_absent_noop.1 demoCycleGraph "n1",
   remove_idempotent_and_absent_noop.2.2.1 singleNodeGraph "ghost" (by decide) (by decide),
   remove_idempotent_and_absent_noop.2.2.2 demoLineGraph "nope" (by decide)⟩

/-- Every single mutation request preserves referential integrity. -/
theorem edgesResolve_applyOp (g : Graph) (op : GraphOp) (h : EdgesResolve g) :
    EdgesResolve (applyOp g op) := by
  cases op with
  | addNode s =>
    intro e he
    rcases h e he with ⟨hs, ht⟩
    constructor
    · simp only [applyOp, addNode, nodeIdsG, List.map_append]
      exact List.mem_append_left _ hs
    · simp only [applyOp, addNode, nodeIdsG, List.map_append]
      exact List.mem_append_left _ ht
  | addEdge s t =>
    by_cases hc : s ∈ nodeIdsG g ∧ t ∈ nodeIdsG g
    · intro e he
      have hnodes : (applyOp g (GraphOp.addEdge s t)).nodes = g.nodes := by
        simp [applyOp, addEdge, if_pos hc]
      have hedges : (applyOp g (GraphOp.addEdge s t)).edges =
          g.edges ++ [{ id := "edge-" ++ toString g.nextId, source := s, target := t }] := by
        simp [applyOp, addEdge, if_pos hc]
      rw [hedges] at he
      unfold nodeIdsG
      rw [hnodes]
      rcases List.mem_append.mp he with hold | hnew
      · exact h e hold
      · rcases List.mem_singleton.mp hnew with rfl
        exact hc
    · intro e he
      have hsame : applyOp g (GraphOp.addEdge s t) = g := by
        simp [applyOp, addEdge, hc]
      rw [hsame] at he ⊢
      exact h e he
  | removeNode id =>
    intro e he
    simp only [applyOp, removeNode] at he ⊢
    rcases List.mem_filter.mp he with ⟨heg, hcond⟩
    have hne : e.source ≠ id ∧ e.target ≠ id := by
      simpa using hcond
    rcases h e heg with ⟨hs, ht⟩
    constructor
    · rcases List.mem_map.mp hs with ⟨n, hn, hnid⟩
      refine List.mem_map.mpr ⟨n, List.mem_filter.mpr ⟨hn, ?_⟩, hnid⟩
      simp [hnid, hne.1]
    · rcases List.mem_map.mp ht with ⟨n, hn, hnid⟩
      refine List.mem_map.mpr ⟨n, List.mem_filter.mpr ⟨hn, ?_⟩, hnid⟩
      simp [hnid, hne.2]

/-- C3: across every sequence of `addNode`/`addEdge`/`removeNode` requests,
every edge present afterward has both endpoints in the node set; in
particular `removeNode(id)` cascades so that no edge mentioning `id`
remains. -/
theorem referential_integrity :
    (∀ (g : Graph) (ops : List GraphOp), EdgesResolve g →
      EdgesResolve (applyOps g ops)) ∧
    (∀ ops : List GraphOp, EdgesResolve (applyOps emptyGraph ops)) ∧
    (∀ (g : Graph) (id : String), ∀ e ∈ (removeNode g id).edges,
      e.source ≠ id ∧ e.target ≠ id) := by
  have hpres : ∀ (ops : List GraphOp) (g : Graph), EdgesResolve g →
      EdgesResolve (applyOps g ops) := by
    intro ops
    induction ops with
    | nil => exact fun g h => h
    | cons op rest ih => exact fun g h => ih _ (edgesResolve_applyOp g op h)
  refine ⟨fun g ops h => hpres ops g h, ?_, ?_⟩
  · intro ops
    apply hpres
    intro e he
    exact absurd he (List.not_mem_nil e)
  · intro g id e he
    rcases List.mem_filter.mp he with ⟨_, hcond⟩
    simpa using hcond

/-- Witness for C3: a concrete add/connect/remove sequence keeps integrity,
and removing `n1` from the cycle graph leaves no edge mentioning it. -/
theorem referential_integrity_witness :
    EdgesResolve
      (applyOps singleNodeGraph
        [GraphOp.addNode { type := "t", input := [], position := (0, 0) },
         GraphOp.addEdge "n1" "node-0",
         GraphOp.removeNode "n1"]) ∧
    (("e1" : String) = "e1" ∧
      ∀ e ∈ (removeNode demoCycleGraph "n1").edges,
        e.source ≠ "n1" ∧ e.target ≠ "n1") :=
  ⟨referential_integrity.1 singleNodeGraph
      [GraphOp.addNode { type := "t", input := [], position := (0, 0) },
       GraphOp.addEdge "n1" "node-0",
       GraphOp.removeNode "n1"] (by decide),
   ⟨rfl, referential_integrity.2.2 demoCycleGraph "n1"⟩⟩

/-! ## Correctness of the depth-first cycle check -/

theorem edgeIn_succs (edges : List Edge) (u v : String) :
    v ∈ succs edges u ↔ edgeIn edges u v := by
  unfold succs edgeIn
  simp only [List.mem_map, List.mem_filter, beq_iff_eq]
  constructor
  · rintro ⟨e, ⟨he, hs⟩, ht⟩
    exact ⟨e, he, hs, ht⟩
  · rintro ⟨e, he, hs, ht⟩
    exact ⟨e, ⟨he, hs⟩, ht⟩

theorem stackAbove_spec (u : String) :
    ∀ grey : List String, u ∈ grey →
      (∃ q, grey = stackAbove u grey ++ u :: q) ∧ u ∉ stackAbove u grey := by
  intro grey
  induction grey with
  | nil => intro h; exact absurd h (List.not_mem_nil u)
  | cons g rest ih =>
    intro hmem
    by_cases hg : g = u
    · subst hg
      exact ⟨⟨rest, by simp [stackAbove]⟩, by simp [stackAbove]⟩
    · have hmem' : u ∈ rest := by
        rcases List.mem_cons.mp hmem with h | h
        · exact absurd h.symm hg
        · exact h
      rcases ih hmem' with ⟨⟨q, hq⟩, hnot⟩
      constructor
      · refine ⟨q, ?_⟩
        simp only [stackAbove, if_neg hg, List.cons_append]
        rw [← hq]
      · simp only [stackAbove, if_neg hg, List.mem_cons]
        rintro (h | h)
        · exact hg h.symm
        · exact hnot h

theorem extractCycle_isCycle (edges : List Edge) (u : String) (grey : List String)
    (hmem : u ∈ grey) (hnd : grey.Nodup)
    (hch : List.Chain' (fun a b => edgeIn edges b a) grey)
    (hhd : ∀ hd tl, grey = hd :: tl → edgeIn edges hd u) :
    IsCycleList edges (extractCycle u grey) ∧ (extractCycle u grey).Nodup := by
  rcases stackAbove_spec u grey hmem with ⟨⟨q, hdecomp⟩, hnotin⟩
  set p := stackAbove u grey with hp
  constructor
  · show List.Chain' (edgeIn edges) (u :: (p.reverse ++ [u]))
    have hgrey2 : grey = (p ++ [u]) ++ q := by
      rw [hdecomp]; simp
    have hchpu : List.Chain' (fun a b => edgeIn edges b a) (p ++ [u]) := by
      rw [hgrey2] at hch
      exact (List.chain'_append.mp hch).1
    have hchrev : List.Chain' (edgeIn edges) (u :: p.reverse) := by
      have h := List.chain'_reverse.mpr hchpu
      simpa using h
    have hclose : ∀ x ∈ (u :: p.reverse).getLast?,
        ∀ y ∈ ([u] : List String).head?, edgeIn edges x y := by
      intro x hx y hy
      simp only [List.head?_cons, Option.mem_def, Option.some.injEq] at hy
      subst hy
      cases hpc : p with
      | nil =>
        rw [hpc] at hx
        simp only [List.reverse_nil, List.getLast?_singleton, Option.mem_def,
          Option.some.injEq] at hx
        subst hx
        exact hhd u q (by rw [hdecomp, hpc]; rfl)
      | cons ph pt =>
        have hlast : (u :: ((ph :: pt).reverse)).getLast? = some ph := by
          cases hrev : (ph :: pt).reverse with
          | nil => exact absurd hrev (by simp)
          | cons a t =>
            rw [List.getLast?_cons_cons, ← hrev, List.getLast?_reverse]
            rfl
        rw [hpc, hlast] at hx
        simp only [Option.mem_def, Option.some.injEq] at hx
        subst hx
        exact hhd ph (pt ++ u :: q) (by rw [hdecomp, hpc]; simp)
    have := List.chain'_append.mpr ⟨hchrev, List.chain'_singleton u, hclose⟩
    simpa using this
  · show (u :: p.reverse).Nodup
    rw [List.nodup_cons]
    constructor
    · simpa using hnotin
    · apply List.nodup_reverse.mpr
      rw [hdecomp] at hnd
      exact List.Nodup.of_append_left hnd

/-- Error analysis of the traversal: under the stack invariants (the stack
is duplicate-free, consecutive stack entries are connected bottom-up by
edges, and every work-list node is a successor of the stack top), a
reported error is a genuine simple directed cycle. -/
theorem dfsFuel_error (edges : List Edge) :
    ∀ (fuel : Nat) (grey : List String), grey.Nodup →
      List.Chain' (fun a b => edgeIn edges b a) grey →
      ∀ ws : List String,
        (∀ hd tl, grey = hd :: tl → ∀ w ∈ ws, edgeIn edges hd w) →
        ∀ black c : List String,
          dfsFuel edges fuel grey black ws = Except.error c →
          IsCycleList edges c ∧ c.Nodup := by
  intro fuel
  induction fuel with
  | zero =>
    intro grey _ _ ws _ black c heq
    exact absurd heq (by simp [dfsFuel])
  | succ f ihf =>
    intro grey hnd hch ws
    induction ws with
    | nil =>
      intro _ black c heq
      exact absurd heq (by simp [dfsFuel, dfsList])
    | cons u rest ihw =>
      intro hws black c heq
      have hwsrest : ∀ hd tl, grey = hd :: tl → ∀ w ∈ rest, edgeIn edges hd w :=
        fun hd tl hgr w hw => hws hd tl hgr w (List.mem_cons_of_mem u hw)
      by_cases hg : u ∈ grey
      · have hc : (Except.error (extractCycle u grey) :
            Except (List String) (List String)) = Except.error c := by
          simpa [dfsFuel, dfsList, hg] using heq
        have hc' : extractCycle u grey = c := by
          injection hc
        subst hc'
        exact extractCycle_isCycle edges u grey hg hnd hch
          (fun hd tl hgr => hws hd tl hgr u (List.mem_cons_self u rest))
      · by_cases hb : u ∈ black
        · exact ihw hwsrest black c (by simpa [dfsFuel, dfsList, hg, hb] using heq)
        · cases hsub : dfsFuel edges f (u :: grey) black (succs edges u) with
          | error c' =>
            have hcc : c' = c := by
              have := heq
              simp only [dfsFuel, dfsList, if_neg hg, if_neg hb, hsub] at this
              injection this
            subst hcc
            have hnd2 : (u :: grey).Nodup := List.nodup_cons.mpr ⟨hg, hnd⟩
            have hch2 : List.Chain' (fun a b => edgeIn edges b a) (u :: grey) := by
              apply List.chain'_cons'.mpr
              refine ⟨?_, hch⟩
              intro y hy
              cases grey with
              | nil => exact absurd hy (by simp)
              | cons hd tl =>
                simp only [List.head?_cons, Option.mem_def, Option.some.injEq] at hy
                subst hy
                exact hws hd tl rfl u (List.mem_cons_self u rest)
            have hws2 : ∀ hd tl, u :: grey = hd :: tl →
                ∀ w ∈ succs edges u, edgeIn edges hd w := by
              intro hd tl hgr w hw
              injection hgr with h1 _
              subst h1
              exact (edgeIn_succs edges u w).mp hw
            exact ihf (u :: grey) hnd2 hch2 (succs edges u) hws2 black c' hsub
          | ok b₂ =>
            apply ihw hwsrest (u :: b₂) c
            simpa [dfsFuel, dfsList, hg, hb, hsub] using heq

/-- A cycle reported by `findCycle` is a genuine simple directed cycle of
the graph. -/
theorem findCycle_sound (g : Graph) (c : List String)
    (h : findCycle g = some c) : IsCycleList g.edges c ∧ c.Nodup := by
  unfold findCycle at h
  cases heq : dfsFuel g.edges ((reachIds g).length + 1) [] [] (nodeIdsG g) with
  | error c' =>
    rw [heq] at h
    simp only [Option.some.injEq] at h
    subst h
    exact dfsFuel_error g.edges ((reachIds g).length + 1) [] List.nodup_nil
      List.chain'_nil (nodeIdsG g) (by intro hd tl hgr; cases hgr) [] c' heq
  | ok b =>
    rw [heq] at h
    cases h

theorem topoOK_nil (edges : List Edge) : TopoOK edges [] := by
  intro l₁ u l₂ h
  exact absurd h (by simp)

theorem topoOK_cons (edges : List Edge) (u : String) (b : List String)
    (hsucc : ∀ v ∈ succs edges u, v ∈ b) (hb : TopoOK edges b) :
    TopoOK edges (u :: b) := by
  intro l₁ w l₂ h
  cases l₁ with
  | nil =>
    rw [List.nil_append] at h
    injection h with h1 h2
    subst h1; subst h2
    exact hsucc
  | cons x l₁' =>
    rw [List.cons_append] at h
    injection h with _ h2
    exact hb l₁' w l₂ h2

theorem chain_pred {R : String → String → Prop} :
    ∀ (xs : List String) (x : String), List.Chain R x xs →
      ∀ u ∈ xs, ∃ w ∈ x :: xs, R w u := by
  intro xs
  induction xs with
  | nil =>
    intro x _ u hu
    exact absurd hu (List.not_mem_nil u)
  | cons y t ih =>
    intro x hch u hu
    rw [List.chain_cons] at hch
    rcases List.mem_cons.mp hu with rfl | hu'
    · exact ⟨x, List.mem_cons_self x _, hch.1⟩
    · rcases ih y hch.2 u hu' with ⟨w, hw, hR⟩
      exact ⟨w, List.mem_cons_of_mem x hw, hR⟩

/-- Every node of a directed cycle has a predecessor on the cycle. -/
theorem cycle_pred (edges : List Edge) (c : List String)
    (hc : IsCycleList edges c) : ∀ u ∈ c, ∃ w ∈ c, edgeIn edges w u := by
  cases c with
  | nil => exact absurd hc id
  | cons a rest =>
    intro u hu
    have hch : List.Chain (edgeIn edges) a (rest ++ [a]) := hc
    have hu' : u ∈ rest ++ [a] := by
      rcases List.mem_cons.mp hu with rfl | h
      · exact List.mem_append_right _ (List.mem_singleton.mpr rfl)
      · exact List.mem_append_left _ h
    rcases chain_pred (rest ++ [a]) a hch u hu' with ⟨w, hw, hR⟩
    refine ⟨w, ?_, hR⟩
    rcases List.mem_cons.mp hw with rfl | hw'
    · exact List.mem_cons_self _ _
    · rcases List.mem_append.mp hw' with h | h
      · exact List.mem_cons_of_mem _ h
      · rw [List.mem_singleton.mp h]
        exact List.mem_cons_self _ _

/-- A duplicate-free reverse-topologically ordered list cannot contain all
the nodes of a directed cycle. -/
theorem topoOK_no_cycle (edges : List Edge) :
    ∀ b : List String, b.Nodup → TopoOK edges b →
      ∀ c : List String, IsCycleList edges c → ¬(∀ x ∈ c, x ∈ b) := by
  intro b
  induction b with
  | nil =>
    intro _ _ c hc hall
    cases c with
    | nil => exact hc
    | cons a rest => exact absurd (hall a (List.mem_cons_self a rest)) (List.not_mem_nil a)
  | cons u b' ih =>
    intro hnd htopo c hc hall
    rcases List.nodup_cons.mp hnd with ⟨hun, hnd'⟩
    have htopo' : TopoOK edges b' := by
      intro l₁ w l₂ h
      exact htopo (u :: l₁) w l₂ (by rw [List.cons_append, h])
    by_cases hu : u ∈ c
    · rcases cycle_pred edges c hc u hu with ⟨w, hwc, hR⟩
      have hwb : w ∈ u :: b' := hall w hwc
      rcases List.mem_cons.mp hwb with heq | hwb'
      · rw [heq] at hR
        have husucc : u ∈ succs edges u := (edgeIn_succs edges u u).mpr hR
        exact hun (htopo [] u b' rfl u husucc)
      · rcases List.append_of_mem hwb' with ⟨l₁, l₂, hsplit⟩
        have hul2 : u ∈ l₂ :=
          htopo (u :: l₁) w l₂ (by rw [List.cons_append, hsplit]) u
            ((edgeIn_succs edges w u).mpr hR)
        apply hun
        rw [hsplit]
        exact List.mem_append_right _ (List.mem_cons_of_mem _ hul2)
    · apply ih hnd' htopo' c hc
      intro x hx
      rcases List.mem_cons.mp (hall x hx) with rfl | h
      · exact absurd hx hu
      · exact h

/-- Analysis of a successful traversal: with enough fuel relative to the
stack, a run that reports no cycle blackens its whole work list, keeps the
finished list duplicate-free and disjoint from the stack, and maintains the
reverse-topological order of the finished list. -/
theorem dfsFuel_ok (edges : List Edge) (allIds : List String)
    (hsucc : ∀ u v : String, v ∈ succs edges u → v ∈ allIds) :
    ∀ (fuel : Nat) (grey : List String), grey.Nodup → grey ⊆ allIds →
      ∀ ws : List String, ws ⊆ allIds →
        ∀ black black' : List String,
          black.Nodup → (∀ x ∈ black, x ∉ grey) → TopoOK edges black →
          allIds.length + 1 ≤ fuel + grey.length →
          dfsFuel edges fuel grey black ws = Except.ok black' →
          (∃ pre, black' = pre ++ black) ∧ (∀ w ∈ ws, w ∈ black') ∧
            black'.Nodup ∧ (∀ x ∈ black', x ∉ grey) ∧ TopoOK edges black' := by
  intro fuel
  induction fuel with
  | zero =>
    intro grey hgnd hgsub ws _ black black' _ _ _ hfuel _
    exfalso
    have hlen : grey.length ≤ allIds.length := (List.Nodup.subperm hgnd hgsub).length_le
    omega
  | succ f ihf =>
    intro grey hgnd hgsub ws
    induction ws with
    | nil =>
      intro _ black black' hbnd hdisj htopo _ heq
      have hb : black = black' := by
        simpa [dfsFuel, dfsList] using heq
      subst hb
      exact ⟨⟨[], rfl⟩, by simp, hbnd, hdisj, htopo⟩
    | cons u rest ihw =>
      intro hws black black' hbnd hdisj htopo hfuel heq
      have hwsrest : rest ⊆ allIds := fun x hx => hws (List.mem_cons_of_mem u hx)
      have hu : u ∈ allIds := hws (List.mem_cons_self u rest)
      by_cases hg : u ∈ grey
      · exact absurd heq (by simp [dfsFuel, dfsList, hg])
      · by_cases hb : u ∈ black
        · have heq' : dfsFuel edges (f + 1) grey black rest = Except.ok black' := by
            simpa [dfsFuel, dfsList, hg, hb] using heq
          rcases ihw hwsrest black black' hbnd hdisj htopo hfuel heq' with
            ⟨⟨pre, hpre⟩, hwsb, hnd4, hdj4, ht4⟩
          refine ⟨⟨pre, hpre⟩, ?_, hnd4, hdj4, ht4⟩
          intro w hw
          rcases List.mem_cons.mp hw with rfl | hw'
          · rw [hpre]
            exact List.mem_append_right _ hb
          · exact hwsb w hw'
        · cases hsub : dfsFuel edges f (u :: grey) black (succs edges u) with
          | error c =>
            exact absurd heq (by simp [dfsFuel, dfsList, hg, hb, hsub])
          | ok b₂ =>
            have heq' : dfsFuel edges (f + 1) grey (u :: b₂) rest = Except.ok black' := by
              simpa [dfsFuel, dfsList, hg, hb, hsub] using heq
            have hgnd2 : (u :: grey).Nodup := List.nodup_cons.mpr ⟨hg, hgnd⟩
            have hgsub2 : (u :: grey) ⊆ allIds := by
              intro x hx
              rcases List.mem_cons.mp hx with rfl | hx'
              · exact hu
              · exact hgsub hx'
            have hdisj2 : ∀ x ∈ black, x ∉ u :: grey := by
              intro x hx
              rw [List.mem_cons]
              rintro (rfl | hxg)
              · exact hb hx
              · exact hdisj x hx hxg
            have hfuel2 : allIds.length + 1 ≤ f + (u :: grey).length := by
              simp only [List.length_cons]
              omega
            rcases ihf (u :: grey) hgnd2 hgsub2 (succs edges u)
                (fun v hv => hsucc u v hv) black b₂ hbnd hdisj2 htopo hfuel2 hsub with
              ⟨⟨pre, hpre⟩, hsuccb, hb2nd, hb2dj, hb2topo⟩
            have hub2 : u ∉ b₂ := fun hx => hb2dj u hx (List.mem_cons_self u grey)
            have hnd3 : (u :: b₂).Nodup := List.nodup_cons.mpr ⟨hub2, hb2nd⟩
            have hdisj3 : ∀ x ∈ u :: b₂, x ∉ grey := by
              intro x hx
              rcases List.mem_cons.mp hx with rfl | hx'
              · exact hg
              · exact fun hxg => hb2dj x hx' (List.mem_cons_of_mem u hxg)
            have htopo3 : TopoOK edges (u :: b₂) := topoOK_cons edges u b₂ hsuccb hb2topo
            rcases ihw hwsrest (u :: b₂) black' hnd3 hdisj3 htopo3 hfuel heq' with
              ⟨⟨pre', hpre'⟩, hwsb, hnd4, hdj4, ht4⟩
            refine ⟨⟨pre' ++ u :: pre, ?_⟩, ?_, hnd4, hdj4, ?_⟩
            · rw [hpre', hpre]
              simp
            · intro w hw
              rcases List.mem_cons.mp hw with rfl | hw'
              · rw [hpre']
                exact List.mem_append_right _ (List.mem_cons_self _ _)
              · exact hwsb w hw'
            · exact ht4

/-- Completeness: a directed cycle through the graph's nodes makes
`findCycle` report a cycle. -/
theorem findCycle_complete (g : Graph) (c : List String)
    (hcyc : IsCycleList g.edges c) (hnodes : ∀ x ∈ c, x ∈ nodeIdsG g) :
    ∃ ids, findCycle g = some ids := by
  cases heq : dfsFuel g.edges ((reachIds g).length + 1) [] [] (nodeIdsG g) with
  | error ids =>
    exact ⟨ids, by simp [findCycle, heq]⟩
  | ok b =>
    exfalso
    have hsucc : ∀ u v : String, v ∈ succs g.edges u → v ∈ reachIds g := by
      intro u v hv
      apply List.mem_dedup.mpr
      apply List.mem_append_right
      unfold succs at hv
      rcases List.mem_map.mp hv with ⟨e, he, ht⟩
      exact List.mem_map.mpr ⟨e, (List.mem_filter.mp he).1, ht⟩
    have hnsub : nodeIdsG g ⊆ reachIds g := by
      intro x hx
      exact List.mem_dedup.mpr (List.mem_append_left _ hx)
    rcases dfsFuel_ok g.edges (reachIds g) hsucc ((reachIds g).length + 1) []
        List.nodup_nil (by intro x hx; cases hx) (nodeIdsG g) hnsub [] b
        List.nodup_nil (by intro x hx; cases hx) (topoOK_nil g.edges)
        (by simp) heq with
      ⟨_, hall, hbnd, _, hbtopo⟩
    exact topoOK_no_cycle g.edges b hbnd hbtopo c hcyc
      (fun x hx => hall x (hnodes x hx))

theorem validate_valid_of_acyclic (g : Graph) (hacyc : Acyclic g)
    (hres : EdgesResolve g) : validate false g = ValidationResult.valid := by
  have hfc : findCycle g = none := by
    cases hfc : findCycle g with
    | none => rfl
    | some c =>
      rcases findCycle_sound g c hfc with ⟨hcyc, _⟩
      exact absurd hcyc (hacyc c)
  have hdang : g.edges.filter
      (fun e => !decide (e.source ∈ nodeIdsG g ∧ e.target ∈ nodeIdsG g)) = [] := by
    apply List.filter_eq_nil_iff.mpr
    intro e he
    simp [hres e he]
  simp [validate, hfc, hdang]
  exact hres

theorem validate_invalid_of_cycle (g : Graph) (c : List String)
    (hcyc : IsCycleList g.edges c) (hnodes : ∀ x ∈ c, x ∈ nodeIdsG g) :
    ∃ reasons ids, validate false g = ValidationResult.invalid reasons ∧
      ValidationIssue.cycle ids ∈ reasons ∧ IsCycleList g.edges ids ∧ ids.Nodup := by
  rcases findCycle_complete g c hcyc hnodes with ⟨ids, hfc⟩
  rcases findCycle_sound g ids hfc with ⟨hids, hnd⟩
  refine ⟨(g.edges.filter
      (fun e => !decide (e.source ∈ nodeIdsG g ∧ e.target ∈ nodeIdsG g))).map
        (fun e => ValidationIssue.danglingEdge e.id) ++ [ValidationIssue.cycle ids] ++ [],
    ids, ?_, ?_, hids, hnd⟩
  · simp [validate, hfc]
  · apply List.mem_append_left
    exact List.mem_append_right _ (List.mem_singleton.mpr rfl)

/-- C2: a directed cycle of length at least 2 through the graph's nodes
makes `validate` return `Invalid` with a `Cycle` issue whose ids are
exactly those of a simple directed cycle of the graph; an acyclic graph
whose edges all resolve validates as `Valid`; and on the two-node graph
with edges `n1 -> n2` and `n2 -> n1`, `validate` returns `Invalid` with
exactly the issue `Cycle([n1, n2])`. -/
theorem validate_cycle_detection :
    (∀ (g : Graph) (c : List String), IsCycleList g.edges c → 2 ≤ c.length →
      (∀ x ∈ c, x ∈ nodeIdsG g) →
      ∃ reasons ids, validate false g = ValidationResult.invalid reasons ∧
        ValidationIssue.cycle ids ∈ reasons ∧ IsCycleList g.edges ids ∧ ids.Nodup) ∧
    (∀ g : Graph, Acyclic g → EdgesResolve g →
      validate false g = ValidationResult.valid) ∧
    validate false demoCycleGraph =
      ValidationResult.invalid [ValidationIssue.cycle ["n1", "n2"]] := by
  refine ⟨?_, ?_, by decide⟩
  · intro g c hcyc _ hnodes
    exact validate_invalid_of_cycle g c hcyc hnodes
  · intro g hacyc hres
    exact validate_valid_of_acyclic g hacyc hres

/-- Witness for C2: the two-node cycle scenario reports its cycle, and a
one-node edgeless graph validates as `Valid`. -/
theorem validate_cycle_detection_witness :
    (∃ reasons ids,
      validate false demoCycleGraph = ValidationResult.invalid reasons ∧
        ValidationIssue.cycle ids ∈ reasons ∧
        IsCycleList demoCycleGraph.edges ids ∧ ids.Nodup) ∧
    validate false singleNodeGraph = ValidationResult.valid :=
  ⟨validate_cycle_detection.1 demoCycleGraph ["n1", "n2"] (by decide) (by decide)
      (by decide),
   validate_cycle_detection.2.1 singleNodeGraph
     (acyclic_of_edges_nil singleNodeGraph rfl) (by decide)⟩

end WorkflowEngine
